import Mathlib

/-!
Verification development for the `chords_ai` repository.

The repository has two independent components:

* `chords_ai/generator.py` — class `ChordsAI`: a sampling loop around a
  black-box Keras model (`generate_seq` / `generate_seq2`);
* `chords_ai/player.py` — class `ChordSequencePlayer`: a rendering loop
  around a black-box FluidSynth synthesizer (`play` / `_make_chord`).

The shallow embedding below translates the Python code into Lean.  The
external black boxes (the trained model together with `np.random.choice`,
the note-name-to-MIDI converter, the synthesizer's capture call) are
passed in as function parameters, exactly as the spec recommends
("model and treat as polymorphic capabilities behind a narrow
interface"), so the loops themselves are fully executable.

Python-semantics helpers (`str.split`, dict comprehensions, one-shot
`map` iterators) are embedded explicitly and documented at their
definitions.
-/

/-! ### Python semantics helpers -/

/-- Helper for Python's `str.split`: walk the character list, cutting a new
token at every character satisfying `p` (consecutive separators produce
empty tokens, as in Python's one-argument `str.split(sep)`). -/
def splitCharsBy (p : Char → Bool) : List Char → List Char → List String
  | [], acc => [String.mk acc.reverse]
  | c :: rest, acc =>
      if p c then String.mk acc.reverse :: splitCharsBy p rest []
      else splitCharsBy p rest (c :: acc)

/-- Python `s.split(" ")` (used by `ChordSequencePlayer.play`): split on every
single space, KEEPING empty tokens.  In particular `"".split(" ") == ['']`
and `"a  b".split(" ") == ['a', '', 'b']`. -/
def pySplitSpace (s : String) : List String :=
  splitCharsBy (fun c => c = ' ') s.data []

/-- Python `s.split()` with no argument (used by `ChordsAI.generate_seq`):
split on runs of whitespace and discard empty tokens. -/
def pySplitWs (s : String) : List String :=
  (splitCharsBy Char.isWhitespace s.data []).filter (fun t => t ≠ "")

/-- Association-list lookup with decidable equality: first binding wins. -/
def alookup [DecidableEq α] (k : α) : List (α × β) → Option β
  | [] => none
  | p :: rest => if p.1 = k then some p.2 else alookup k rest

/-- Lookup in a Python dict built from a list of key-value pairs
(`{k: v for k, v in pairs}`): later bindings overwrite earlier ones, hence
the lookup scans the reversed insertion list. -/
def pyDictGet [DecidableEq α] (ps : List (α × β)) (k : α) : Option β :=
  alookup k ps.reverse

/-- A Python 3 iterator (such as the object returned by `map`): it only
holds the elements not yet consumed. -/
structure PyIter (α : Type) where
  remaining : List α

/-- Running a Python 3 iterator to exhaustion (a `for` loop over it) yields
all remaining elements and leaves the iterator exhausted: a second `for`
loop over the same iterator object yields nothing. -/
def PyIter.drain (it : PyIter α) : List α × PyIter α :=
  (it.remaining, ⟨[]⟩)

/-! ### Generator: data model (`ChordsAI.__init__`)

`self._mapping = {k: v for k, v in zip(self._vocabulary, range(len(self._vocabulary)))}`
`self._inverse_mapping = {v: k for k, v in zip(self._vocabulary, range(len(self._vocabulary)))}`

The vocabulary is the sorted JSON list of chord names; throughout, the
vocabulary is a `List String` parameter. -/

/-- The insertion-ordered key-value pairs `zip(vocabulary, range(len(vocabulary)))`
from which both dictionaries of `ChordsAI.__init__` are built. -/
def mappingPairs (vocab : List String) : List (String × Nat) :=
  vocab.zip (List.range vocab.length)

/-- Lookup in `self._mapping` (chord name to integer index); `none` models a
Python `KeyError`. -/
def mkMapping (vocab : List String) (c : String) : Option Nat :=
  pyDictGet (mappingPairs vocab) c

/-- The insertion-ordered pairs of `self._inverse_mapping = {v: k for ...}`. -/
def inversePairs (vocab : List String) : List (Nat × String) :=
  (mappingPairs vocab).map (fun kv => (kv.2, kv.1))

/-- Lookup in `self._inverse_mapping` (integer index to chord name); `none`
models a Python `KeyError`. -/
def mkInverseMapping (vocab : List String) (i : Nat) : Option String :=
  pyDictGet (inversePairs vocab) i

/-! ### Generator: `generate_seq` and `generate_seq2` -/

/-- The encoding step `[self._mapping[char] for char in chord_sequence]`:
fails (KeyError) as soon as one chord is not a key of the mapping. -/
def encodeSeq (vocab : List String) : List String → Option (List Nat)
  | [] => some []
  | c :: rest => do
      let i ← mkMapping vocab c
      let is ← encodeSeq vocab rest
      some (i :: is)

/-- Keras `pad_sequences([xs], maxlen, truncating='pre')[0]` with the default
`padding='pre'` and pad value `0`: keep the last `maxlen` entries, or left-pad
with zeros when the sequence is shorter than `maxlen`. -/
def padSequencesPre (maxlen : Nat) (xs : List Nat) : List Nat :=
  if maxlen ≤ xs.length then xs.drop (xs.length - maxlen)
  else List.replicate (maxlen - xs.length) 0 ++ xs

/-- The encoded window `pad_encoded` handed to `self._model.predict` in one
iteration of the generation loop: encode the whole running sequence, then
truncate to the last `L` entries. -/
def windowOf (vocab : List String) (L : Nat) (seq : List String) : Option (List Nat) :=
  (encodeSeq vocab seq).map (padSequencesPre L)

/-- The linear scan `for char, index in mapping.items(): if index == yhat: ...`
of `generate_seq` (and `generate_seq2`), with its `out_char = ''` default.
Dict items come in insertion order, i.e. in the order of `mappingPairs`. -/
def scanForIndex (ps : List (String × Nat)) (yhat : Nat) : String :=
  match ps with
  | [] => ""
  | (c, i) :: rest => if i = yhat then c else scanForIndex rest yhat

/-- One iteration of the loop of `ChordsAI.generate_seq`.  The black-box
composite of `self._model.predict` and `np.random.choice` is the parameter
`sample`, which receives the iteration number (standing for the state of
the random number generator) and the encoded window, and returns the sampled
index `yhat`.  The trailing `assert self._inverse_mapping[yhat] == out_char`
fails (models as `none`) when the lookup raises or the comparison is false. -/
def genStep (vocab : List String) (L : Nat) (sample : Nat → List Nat → Nat)
    (t : Nat) (seq : List String) : Option (List String) := do
  let pad_encoded ← windowOf vocab L seq
  let yhat := sample t pad_encoded
  let out_char := scanForIndex (mappingPairs vocab) yhat
  let inv ← mkInverseMapping vocab yhat
  if inv = out_char then some (seq ++ [out_char]) else none

/-- The loop `for _ in range(n)` of `generate_seq`, threading the iteration
counter `t` and the running `chord_sequence`. -/
def genLoop (vocab : List String) (L : Nat) (sample : Nat → List Nat → Nat) :
    Nat → Nat → List String → Option (List String)
  | 0, _, seq => some seq
  | Nat.succ m, t, seq =>
      match genStep vocab L sample t seq with
      | none => none
      | some seq2 => genLoop vocab L sample m (t + 1) seq2

/-- `ChordsAI.generate_seq(seed_chord_sequence, n_chords_to_generate)`:
split the seed on whitespace, assert its length equals `L`
(`self.length_of_sequences`), run the generation loop, and return the
space-joined suffix `chord_sequence[L:]`.  `none` models an exception. -/
def generate_seq (vocab : List String) (L : Nat) (sample : Nat → List Nat → Nat)
    (seed_chord_sequence : String) (n_chords_to_generate : Nat) : Option String :=
  let chord_sequence := pySplitWs seed_chord_sequence
  if chord_sequence.length = L then
    match genLoop vocab L sample n_chords_to_generate 0 chord_sequence with
    | none => none
    | some final => some (" ".intercalate (final.drop L))
  else none

/-- One iteration of the loop of `ChordsAI.generate_seq2`: identical to
`genStep` except that the final `assert self._inverse_mapping[yhat] == out_char`
is absent (the method appends `out_char` unconditionally, even the `''`
default). -/
def genStep2 (vocab : List String) (L : Nat) (sample : Nat → List Nat → Nat)
    (t : Nat) (seq : List String) : Option (List String) := do
  let encoded ← windowOf vocab L seq
  let yhat := sample t encoded
  let out_char := scanForIndex (mappingPairs vocab) yhat
  some (seq ++ [out_char])

/-- The loop `for _ in range(n_chars)` of `generate_seq2`. -/
def genLoop2 (vocab : List String) (L : Nat) (sample : Nat → List Nat → Nat) :
    Nat → Nat → List String → Option (List String)
  | 0, _, seq => some seq
  | Nat.succ m, t, seq =>
      match genStep2 vocab L sample t seq with
      | none => none
      | some seq2 => genLoop2 vocab L sample m (t + 1) seq2

/-- `ChordsAI.generate_seq2(seed_text, n_chars)`: same structure as
`generate_seq` (split, assert length, loop, join the suffix `in_text[L:]`). -/
def generate_seq2 (vocab : List String) (L : Nat) (sample : Nat → List Nat → Nat)
    (seed_text : String) (n_chars : Nat) : Option String :=
  let in_text := pySplitWs seed_text
  if in_text.length = L then
    match genLoop2 vocab L sample n_chars 0 in_text with
    | none => none
    | some final => some (" ".intercalate (final.drop L))
  else none

/-! ### Player: `ChordSequencePlayer`

`self._components` is the chord-name to note-names dictionary loaded from
the `chords_components.yml` resource; it is a `String → Option (List String)`
parameter (`none` models a `KeyError`).  The external black boxes are
parameters as well: `str2midi` stands for `audiolazy.lazy_midi.str2midi`,
and `get_samples` for `fluidsynth`'s capture call `fl.get_samples(n)`
(sample values are the synthesizer's 16-bit integers; the later conversion
to float keeps the sample count and order, which is all the claims use). -/

/-- Calls `_make_chord` issues to the synthesizer and notebook-level
resources, in program order. -/
inductive SynthEvent where
  | sfload (instrument : String)
  | programSelect (chan bank preset : Nat)
  | noteon (chan : Nat) (key : Int) (vel : Nat)
  | getSamples (n : Nat)
  | noteoff (chan : Nat) (key : Int)
  | delete
deriving DecidableEq

/-- `ChordSequencePlayer._make_chord(chord, instrument)`: look the chord up in
the components table (KeyError when absent), build the one-shot Python 3
iterator `midi_notes = map(lambda x: str2midi("%s5" % x), components)`,
turn every note the first `for` loop obtains from it on, capture `rate`
samples, turn every note the second `for` loop obtains from the SAME
iterator off, and delete the synthesizer.  Returns the captured waveform
together with the trace of synthesizer calls. -/
def _make_chord (components : String → Option (List String))
    (str2midi : String → Int) (get_samples : Nat → List Int) (rate : Nat)
    (chord instrument : String) : Option (List Int × List SynthEvent) := do
  let comps ← components chord
  let midi_notes : PyIter Int := ⟨comps.map (fun x => str2midi (x ++ "5"))⟩
  let (notesOn, midi_notes1) := midi_notes.drain
  let s := get_samples rate
  let (notesOff, _) := midi_notes1.drain
  some (s,
    [SynthEvent.sfload instrument, SynthEvent.programSelect 0 0 0]
      ++ notesOn.map (fun note => SynthEvent.noteon 0 note 60)
      ++ [SynthEvent.getSamples rate]
      ++ notesOff.map (fun note => SynthEvent.noteoff 0 note)
      ++ [SynthEvent.delete])

/-- The loop of `ChordSequencePlayer.play`:
`for chord in seq.split(" "): audio = np.append(audio, self._make_chord(...))`
(`np.append` concatenates, so the running buffer is a list append). -/
def playLoop (components : String → Option (List String))
    (str2midi : String → Int) (get_samples : Nat → List Int) (rate : Nat)
    (instrument : String) : List String → List Int → Option (List Int)
  | [], audio => some audio
  | chord :: rest, audio =>
      match _make_chord components str2midi get_samples rate chord instrument with
      | none => none
      | some (s, _) => playLoop components str2midi get_samples rate instrument rest (audio ++ s)

/-- `ChordSequencePlayer.play(seq, instrument)`: split the sequence string on
single spaces (keeping empty tokens, as Python's `split(" ")` does), render
each token with `_make_chord`, concatenate, and return the buffer.  The
notebook `display(Audio(...))` presentation is a side effect outside every
claim and is not modelled.  `none` models a propagated exception. -/
def play (components : String → Option (List String))
    (str2midi : String → Int) (get_samples : Nat → List Int) (rate : Nat)
    (seq instrument : String) : Option (List Int) :=
  playLoop components str2midi get_samples rate instrument (pySplitSpace seq) []

/-! ### Lookup lemmas -/

theorem alookup_append_some [DecidableEq α] {k : α} {v : β} (xs ys : List (α × β))
    (h : alookup k xs = some v) : alookup k (xs ++ ys) = some v := by
  induction xs with
  | nil => simp [alookup] at h
  | cons p t ih =>
      by_cases hpk : p.1 = k
      · simpa [alookup, hpk] using h
      · simp only [alookup, hpk, if_neg, List.cons_append, ite_false] at h ⊢
        exact ih h

theorem alookup_append_none [DecidableEq α] {k : α} (xs ys : List (α × β))
    (h : alookup k xs = none) : alookup k (xs ++ ys) = alookup k ys := by
  induction xs with
  | nil => rfl
  | cons p t ih =>
      by_cases hpk : p.1 = k
      · simp [alookup, hpk] at h
      · simp only [alookup, hpk, ite_false] at h ⊢
        exact ih h

theorem alookup_eq_none [DecidableEq α] {k : α} (xs : List (α × β))
    (h : ∀ p ∈ xs, p.1 ≠ k) : alookup k xs = none := by
  induction xs with
  | nil => rfl
  | cons p t ih =>
      have hp : p.1 ≠ k := h p (by simp)
      simp only [alookup, hp, ite_false]
      exact ih fun q hq => h q (by simp [hq])

theorem alookup_reverse [DecidableEq α] {k : α} (xs : List (α × β))
    (hnd : (xs.map Prod.fst).Nodup) : alookup k xs.reverse = alookup k xs := by
  induction xs with
  | nil => rfl
  | cons p t ih =>
      simp only [List.map_cons, List.nodup_cons] at hnd
      obtain ⟨hp, hnd'⟩ := hnd
      have hkeys : ∀ q ∈ t, q.1 ≠ p.1 := by
        intro q hq hq1
        exact hp (hq1 ▸ List.mem_map_of_mem Prod.fst hq)
      by_cases hpk : p.1 = k
      · have ht : alookup k t.reverse = none := by
          refine alookup_eq_none _ fun q hq => ?_
          exact fun h => hkeys q (List.mem_reverse.mp hq) (h.trans hpk.symm)
        rw [List.reverse_cons, alookup_append_none _ _ ht]
        simp [alookup, hpk]
      · rw [List.reverse_cons]
        cases hrev : alookup k t.reverse with
        | none =>
            rw [alookup_append_none _ _ hrev]
            rw [ih hnd'] at hrev
            simp [alookup, hpk, hrev]
        | some v =>
            rw [alookup_append_some _ _ hrev]
            rw [ih hnd'] at hrev
            simp [alookup, hpk, hrev]

theorem zip_range'_cons (a : α) (t : List α) (off : Nat) :
    (a :: t).zip (List.range' off (a :: t).length)
      = (a, off) :: t.zip (List.range' (off + 1) t.length) := rfl

theorem alookup_cons [DecidableEq α] (p : α × β) (rest : List (α × β)) (k : α) :
    alookup k (p :: rest) = if p.1 = k then some p.2 else alookup k rest := rfl

theorem scanForIndex_cons (p : String × Nat) (rest : List (String × Nat)) (yhat : Nat) :
    scanForIndex (p :: rest) yhat = if p.2 = yhat then p.1 else scanForIndex rest yhat := rfl

theorem alookup_zip_range' [DecidableEq α] {l : List α} (hnd : l.Nodup) :
    ∀ (off i : Nat) (h : i < l.length),
      alookup (l.get ⟨i, h⟩) (l.zip (List.range' off l.length)) = some (off + i) := by
  induction l with
  | nil => intro off i h; exact absurd h (Nat.not_lt_zero i)
  | cons a t ih =>
      intro off i h
      match i with
      | 0 => rw [zip_range'_cons]; simp [alookup]
      | j + 1 =>
          have hat : a ∉ t := (List.nodup_cons.mp hnd).1
          have hj : j < t.length := Nat.lt_of_succ_lt_succ h
          have hne : a ≠ t.get ⟨j, hj⟩ := fun hc => hat (hc ▸ t.get_mem j hj)
          rw [zip_range'_cons, List.get_cons_succ, alookup_cons, if_neg hne,
            ih (List.nodup_cons.mp hnd).2 (off + 1) j hj]
          congr 1
          omega

theorem alookup_swap_zip_range' [DecidableEq α] {l : List α} :
    ∀ (off i : Nat) (h : i < l.length),
      alookup (off + i) ((l.zip (List.range' off l.length)).map (fun kv => (kv.2, kv.1)))
        = some (l.get ⟨i, h⟩) := by
  induction l with
  | nil => intro off i h; exact absurd h (Nat.not_lt_zero i)
  | cons a t ih =>
      intro off i h
      match i with
      | 0 => rw [zip_range'_cons]; simp [alookup]
      | j + 1 =>
          have hj : j < t.length := Nat.lt_of_succ_lt_succ h
          have hne : off ≠ off + (j + 1) := by omega
          rw [zip_range'_cons, List.get_cons_succ, List.map_cons, alookup_cons, if_neg hne,
            show off + (j + 1) = off + 1 + j by omega, ih (off + 1) j hj]

theorem scanForIndex_zip_range' {l : List String} :
    ∀ (off i : Nat) (h : i < l.length),
      scanForIndex (l.zip (List.range' off l.length)) (off + i) = l.get ⟨i, h⟩ := by
  induction l with
  | nil => intro off i h; exact absurd h (Nat.not_lt_zero i)
  | cons a t ih =>
      intro off i h
      match i with
      | 0 => rw [zip_range'_cons]; simp [scanForIndex]
      | j + 1 =>
          have hj : j < t.length := Nat.lt_of_succ_lt_succ h
          have hne : off ≠ off + (j + 1) := by omega
          rw [zip_range'_cons, List.get_cons_succ, scanForIndex_cons, if_neg hne,
            show off + (j + 1) = off + 1 + j by omega, ih (off + 1) j hj]

theorem mappingPairs_keys (vocab : List String) :
    (mappingPairs vocab).map Prod.fst = vocab := by
  unfold mappingPairs
  exact List.map_fst_zip _ _ (by simp)

theorem inversePairs_keys (vocab : List String) :
    (inversePairs vocab).map Prod.fst = List.range vocab.length := by
  unfold inversePairs
  rw [List.map_map]
  exact List.map_snd_zip _ _ (by simp)

theorem mkMapping_get {vocab : List String} (hnd : vocab.Nodup) (i : Nat)
    (h : i < vocab.length) : mkMapping vocab (vocab.get ⟨i, h⟩) = some i := by
  unfold mkMapping pyDictGet
  rw [alookup_reverse _ (by rw [mappingPairs_keys]; exact hnd)]
  unfold mappingPairs
  rw [List.range_eq_range']
  simpa using alookup_zip_range' hnd 0 i h

theorem mkInverseMapping_get (vocab : List String) (i : Nat)
    (h : i < vocab.length) : mkInverseMapping vocab i = some (vocab.get ⟨i, h⟩) := by
  unfold mkInverseMapping pyDictGet
  rw [alookup_reverse _ (by rw [inversePairs_keys]; exact List.nodup_range _)]
  unfold inversePairs mappingPairs
  rw [List.range_eq_range']
  simpa using alookup_swap_zip_range' 0 i h

theorem scanForIndex_get (vocab : List String) (i : Nat) (h : i < vocab.length) :
    scanForIndex (mappingPairs vocab) i = vocab.get ⟨i, h⟩ := by
  unfold mappingPairs
  rw [List.range_eq_range']
  simpa using scanForIndex_zip_range' 0 i h

/-! ### Generation-loop lemmas -/

theorem mkMapping_isSome_of_mem {vocab : List String} (hnd : vocab.Nodup) {c : String}
    (hc : c ∈ vocab) : ∃ i, i < vocab.length ∧ mkMapping vocab c = some i := by
  obtain ⟨⟨i, hi⟩, rfl⟩ := List.mem_iff_get.mp hc
  exact ⟨i, hi, mkMapping_get hnd i hi⟩

theorem encodeSeq_spec {vocab : List String} : ∀ {seq : List String},
    (∀ c ∈ seq, (mkMapping vocab c).isSome) →
    ∃ l, encodeSeq vocab seq = some l ∧ l.length = seq.length := by
  intro seq
  induction seq with
  | nil => intro _; exact ⟨[], rfl, rfl⟩
  | cons c rest ih =>
      intro h
      obtain ⟨i, hi⟩ := Option.isSome_iff_exists.mp (h c (by simp))
      obtain ⟨l, hl, hlen⟩ := ih (fun x hx => h x (by simp [hx]))
      exact ⟨i :: l, by simp [encodeSeq, hi, hl], by simp [hlen]⟩

theorem encodeSeq_append (vocab : List String) (xs ys : List String) :
    encodeSeq vocab (xs ++ ys) = (encodeSeq vocab xs).bind fun a =>
      (encodeSeq vocab ys).bind fun b => some (a ++ b) := by
  induction xs with
  | nil =>
      simp only [List.nil_append]
      cases h : encodeSeq vocab ys <;> simp [encodeSeq, h]
  | cons c rest ih =>
      cases hmc : mkMapping vocab c with
      | none => simp [encodeSeq, hmc]
      | some i =>
          simp only [List.cons_append, encodeSeq, hmc, List.append_eq,
            Option.bind_eq_bind, Option.some_bind]
          rw [ih]
          cases h1 : encodeSeq vocab rest <;> cases h2 : encodeSeq vocab ys <;>
            simp [h1, h2]

theorem genStep_spec {vocab : List String} (L : Nat) {sample : Nat → List Nat → Nat}
    (t : Nat) {seq : List String} (hnd : vocab.Nodup)
    (hs : ∀ t w, sample t w < vocab.length) (hmem : ∀ c ∈ seq, c ∈ vocab) :
    ∃ c, c ∈ vocab ∧ genStep vocab L sample t seq = some (seq ++ [c]) := by
  have henc : ∀ c ∈ seq, (mkMapping vocab c).isSome := by
    intro c hc
    obtain ⟨i, _, hi⟩ := mkMapping_isSome_of_mem hnd (hmem c hc)
    simp [hi]
  obtain ⟨l, hl, -⟩ := encodeSeq_spec henc
  have hw : windowOf vocab L seq = some (padSequencesPre L l) := by
    rw [windowOf, hl]; rfl
  have hylt : sample t (padSequencesPre L l) < vocab.length := hs t _
  refine ⟨vocab.get ⟨sample t (padSequencesPre L l), hylt⟩,
    vocab.get_mem _ hylt, ?_⟩
  simp only [genStep, hw, Option.bind_eq_bind, Option.some_bind,
    mkInverseMapping_get vocab _ hylt, scanForIndex_get vocab _ hylt]
  simp

theorem genLoop_spec {vocab : List String} {L : Nat} {sample : Nat → List Nat → Nat}
    (hnd : vocab.Nodup) (hs : ∀ t w, sample t w < vocab.length) :
    ∀ (n t : Nat) (seq : List String), (∀ c ∈ seq, c ∈ vocab) →
      ∃ gen, genLoop vocab L sample n t seq = some (seq ++ gen)
        ∧ gen.length = n ∧ ∀ c ∈ gen, c ∈ vocab := by
  intro n
  induction n with
  | zero => intro t seq hmem; exact ⟨[], by simp [genLoop], rfl, by simp⟩
  | succ m ih =>
      intro t seq hmem
      obtain ⟨c, hc, hstep⟩ := genStep_spec L t hnd hs hmem
      have hmem2 : ∀ x ∈ seq ++ [c], x ∈ vocab := by
        intro x hx
        rcases List.mem_append.mp hx with hx | hx
        · exact hmem x hx
        · simpa using List.mem_singleton.mp hx ▸ hc
      obtain ⟨gen, hloop, hlen, hgen⟩ := ih (t + 1) (seq ++ [c]) hmem2
      refine ⟨c :: gen, ?_, by simp [hlen], ?_⟩
      · simp [genLoop, hstep, hloop]
      · intro x hx
        rcases List.mem_cons.mp hx with rfl | hx
        · exact hc
        · exact hgen x hx

/-! ### Generator claims -/

/-- C3: for every seed string of exactly `L` tokens all in the vocabulary and
every `n ≥ 0`, `generate_seq` returns exactly `n` space-separated tokens, each
a member of the vocabulary; in particular for `n = 0` it returns the empty
string.  `hnd` records that the vocabulary is a duplicate-free (sorted) set of
chord names; `hs` records that the black-box sampler
`np.random.choice(range(len(vocabulary)), p=preds)` always returns an index
below the vocabulary size. -/
theorem generate_seq_token_count (vocab : List String) (L : Nat)
    (sample : Nat → List Nat → Nat) (seed : String) (n : Nat)
    (hnd : vocab.Nodup) (hs : ∀ t w, sample t w < vocab.length)
    (hlen : (pySplitWs seed).length = L) (hmem : ∀ c ∈ pySplitWs seed, c ∈ vocab) :
    ∃ toks : List String,
      generate_seq vocab L sample seed n = some (" ".intercalate toks)
        ∧ toks.length = n ∧ (∀ c ∈ toks, c ∈ vocab)
        ∧ (n = 0 → generate_seq vocab L sample seed n = some "") := by
  obtain ⟨gen, hloop, hglen, hgen⟩ := genLoop_spec hnd hs n 0 (pySplitWs seed) hmem
  have hmain : generate_seq vocab L sample seed n = some (" ".intercalate gen) := by
    unfold generate_seq
    rw [if_pos hlen, hloop]
    show some (" ".intercalate (List.drop L (pySplitWs seed ++ gen)))
      = some (" ".intercalate gen)
    rw [← hlen, List.drop_left]
  refine ⟨gen, hmain, hglen, hgen, fun hn => ?_⟩
  have hnil : gen = [] := List.length_eq_zero.mp (hn ▸ hglen)
  rw [hmain, hnil]
  rfl

/-- Witness for `generate_seq_token_count`: vocabulary `["Am", "C"]`, window
length 1, a sampler that always picks index 1, seed `"Am"`, two chords. -/
theorem generate_seq_token_count_witness :
    (["Am", "C"] : List String).Nodup
    ∧ (∀ t w, (fun _ _ => 1 : Nat → List Nat → Nat) t w < (["Am", "C"] : List String).length)
    ∧ (pySplitWs "Am").length = 1
    ∧ (∀ c ∈ pySplitWs "Am", c ∈ (["Am", "C"] : List String))
    ∧ ∃ toks : List String,
        generate_seq ["Am", "C"] 1 (fun _ _ => 1) "Am" 2 = some (" ".intercalate toks)
          ∧ toks.length = 2 ∧ (∀ c ∈ toks, c ∈ (["Am", "C"] : List String))
          ∧ (2 = 0 → generate_seq ["Am", "C"] 1 (fun _ _ => 1) "Am" 2 = some "") :=
  ⟨by decide, fun _ _ => Nat.one_lt_two, by decide, by decide,
    generate_seq_token_count ["Am", "C"] 1 (fun _ _ => 1) "Am" 2
      (by decide) (fun _ _ => Nat.one_lt_two) (by decide) (by decide)⟩

/-- C5: a seed whose whitespace-split token count differs from the window
length `L` makes `generate_seq` fail at the leading assert, for every `n`,
before any token is generated. -/
theorem generate_seq_bad_seed_fails (vocab : List String) (L : Nat)
    (sample : Nat → List Nat → Nat) (seed : String) (n : Nat)
    (h : (pySplitWs seed).length ≠ L) :
    generate_seq vocab L sample seed n = none := by
  unfold generate_seq
  rw [if_neg h]

/-- Witness for `generate_seq_bad_seed_fails`: a two-token seed against a
window length of 3. -/
theorem generate_seq_bad_seed_fails_witness :
    (pySplitWs "Am C").length ≠ 3
    ∧ generate_seq ["Am", "C"] 3 (fun _ _ => 0) "Am C" 5 = none :=
  ⟨by decide,
    generate_seq_bad_seed_fails ["Am", "C"] 3 (fun _ _ => 0) "Am C" 5 (by decide)⟩

/-- C7: the mapping and inverse mapping built in `ChordsAI.__init__` form a
bijection between the (duplicate-free, sorted) vocabulary and the dense index
range `[0, len(vocabulary))`; in particular
`inverse_mapping[mapping[c]] == c` for every chord `c` of the vocabulary. -/
theorem mapping_roundtrip_bijection (vocab : List String) (hnd : vocab.Nodup) :
    (∀ c ∈ vocab, ∃ i, mkMapping vocab c = some i ∧ i < vocab.length
        ∧ mkInverseMapping vocab i = some c)
    ∧ ∀ i, i < vocab.length → ∃ c ∈ vocab, mkInverseMapping vocab i = some c
        ∧ mkMapping vocab c = some i := by
  constructor
  · intro c hc
    obtain ⟨⟨i, hi⟩, rfl⟩ := List.mem_iff_get.mp hc
    exact ⟨i, mkMapping_get hnd i hi, hi, mkInverseMapping_get vocab i hi⟩
  · intro i hi
    exact ⟨vocab.get ⟨i, hi⟩, vocab.get_mem i hi, mkInverseMapping_get vocab i hi,
      mkMapping_get hnd i hi⟩

/-- Witness for `mapping_roundtrip_bijection` on the vocabulary
`["Am", "C", "G"]`. -/
theorem mapping_roundtrip_bijection_witness :
    (["Am", "C", "G"] : List String).Nodup
    ∧ ((∀ c ∈ (["Am", "C", "G"] : List String), ∃ i,
            mkMapping ["Am", "C", "G"] c = some i ∧ i < (["Am", "C", "G"] : List String).length
              ∧ mkInverseMapping ["Am", "C", "G"] i = some c)
        ∧ ∀ i, i < (["Am", "C", "G"] : List String).length →
            ∃ c ∈ (["Am", "C", "G"] : List String),
              mkInverseMapping ["Am", "C", "G"] i = some c
                ∧ mkMapping ["Am", "C", "G"] c = some i) :=
  ⟨by decide, mapping_roundtrip_bijection ["Am", "C", "G"] (by decide)⟩

/-- C8: in every iteration of the generation loop, the encoded window
`pad_encoded` handed to `model.predict` is exactly the encoding of the most
recent `L` tokens of the running sequence (left-truncation of the history).
Every running sequence of the loop satisfies the hypotheses: its length
starts at `L` and grows, and its tokens are the seed tokens (whose encoding
the same iteration performs) plus generated vocabulary members. -/
theorem window_is_last_L_tokens (vocab : List String) (L : Nat) (seq : List String)
    (hL : L ≤ seq.length) (henc : ∀ c ∈ seq, (mkMapping vocab c).isSome) :
    windowOf vocab L seq = encodeSeq vocab (seq.drop (seq.length - L)) := by
  have htake : ∀ c ∈ seq.take (seq.length - L), (mkMapping vocab c).isSome :=
    fun c hc => henc c (List.take_subset _ _ hc)
  have hdrop : ∀ c ∈ seq.drop (seq.length - L), (mkMapping vocab c).isSome :=
    fun c hc => henc c (List.drop_subset _ _ hc)
  obtain ⟨l1, hl1, hlen1⟩ := encodeSeq_spec htake
  obtain ⟨l2, hl2, hlen2⟩ := encodeSeq_spec hdrop
  have happ : encodeSeq vocab seq = some (l1 ++ l2) := by
    conv_lhs => rw [← List.take_append_drop (seq.length - L) seq]
    rw [encodeSeq_append, hl1, hl2]
    rfl
  have hlen1' : l1.length = seq.length - L := by
    rw [hlen1, List.length_take]
    omega
  have hlen2' : l2.length = seq.length - (seq.length - L) := by
    rw [hlen2, List.length_drop]
  rw [windowOf, happ, Option.map_some', hl2]
  congr 1
  unfold padSequencesPre
  rw [if_pos (show L ≤ (l1 ++ l2).length by
    rw [List.length_append, hlen1', hlen2']; omega)]
  rw [show (l1 ++ l2).length - L = l1.length by
    rw [List.length_append, hlen1', hlen2']; omega]
  exact List.drop_left l1 l2

/-- Witness for `window_is_last_L_tokens`: vocabulary `["Am", "C", "G"]`,
window length 2, running sequence `["Am", "C", "G"]`. -/
theorem window_is_last_L_tokens_witness :
    2 ≤ (["Am", "C", "G"] : List String).length
    ∧ (∀ c ∈ (["Am", "C", "G"] : List String), (mkMapping ["Am", "C", "G"] c).isSome)
    ∧ windowOf ["Am", "C", "G"] 2 ["Am", "C", "G"]
        = encodeSeq ["Am", "C", "G"]
            ((["Am", "C", "G"] : List String).drop ((["Am", "C", "G"] : List String).length - 2)) :=
  ⟨by decide, by decide,
    window_is_last_L_tokens ["Am", "C", "G"] 2 ["Am", "C", "G"] (by decide) (by decide)⟩

/-- C9: for every sampled index `yhat` below the vocabulary size, the chord
obtained by the linear scan over the forward mapping's items equals
`inverse_mapping[yhat]`, hence the loop's
`assert self._inverse_mapping[yhat] == out_char` always holds. -/
theorem scan_agrees_with_inverse_mapping (vocab : List String) (yhat : Nat)
    (hnd : vocab.Nodup) (hy : yhat < vocab.length) :
    mkInverseMapping vocab yhat = some (scanForIndex (mappingPairs vocab) yhat) := by
  rw [mkInverseMapping_get vocab yhat hy, scanForIndex_get vocab yhat hy]

/-- Witness for `scan_agrees_with_inverse_mapping`: vocabulary
`["Am", "C", "G"]` and sampled index 2. -/
theorem scan_agrees_with_inverse_mapping_witness :
    (["Am", "C", "G"] : List String).Nodup
    ∧ 2 < (["Am", "C", "G"] : List String).length
    ∧ mkInverseMapping ["Am", "C", "G"] 2
        = some (scanForIndex (mappingPairs ["Am", "C", "G"]) 2) :=
  ⟨by decide, by decide,
    scan_agrees_with_inverse_mapping ["Am", "C", "G"] 2 (by decide) (by decide)⟩

theorem genStep_eq_genStep2 {vocab : List String} {L : Nat}
    {sample : Nat → List Nat → Nat}
    (hs : ∀ t w, sample t w < vocab.length) (t : Nat) (seq : List String) :
    genStep vocab L sample t seq = genStep2 vocab L sample t seq := by
  unfold genStep genStep2
  cases hw : windowOf vocab L seq with
  | none => rfl
  | some w =>
      simp only [Option.bind_eq_bind, Option.some_bind]
      have hy : sample t w < vocab.length := hs t w
      rw [mkInverseMapping_get vocab _ hy]
      simp only [Option.some_bind]
      rw [scanForIndex_get vocab _ hy]
      simp

theorem genLoop_eq_genLoop2 {vocab : List String} {L : Nat}
    {sample : Nat → List Nat → Nat}
    (hs : ∀ t w, sample t w < vocab.length) :
    ∀ (n t : Nat) (seq : List String),
      genLoop vocab L sample n t seq = genLoop2 vocab L sample n t seq := by
  intro n
  induction n with
  | zero => intro t seq; rfl
  | succ m ih =>
      intro t seq
      simp only [genLoop, genLoop2, genStep_eq_genStep2 hs t seq]
      cases genStep2 vocab L sample t seq with
      | none => rfl
      | some s2 => exact ih (t + 1) s2

/-- C10: with the same black-box model-and-sampling function (same
probability outputs, same sampled index at each step), `generate_seq` and
`generate_seq2` return the same result for every seed and count: the two
near-duplicate generation methods are behaviorally equivalent.  The
hypotheses record the duplicate-free vocabulary and that sampled indices lie
below the vocabulary size, as `np.random.choice(range(...))` guarantees. -/
theorem generate_seq_eq_generate_seq2 (vocab : List String) (L : Nat)
    (sample : Nat → List Nat → Nat) (seed : String) (n : Nat)
    (hnd : vocab.Nodup) (hs : ∀ t w, sample t w < vocab.length) :
    generate_seq vocab L sample seed n = generate_seq2 vocab L sample seed n := by
  unfold generate_seq generate_seq2
  simp only [genLoop_eq_genLoop2 hs]

/-- Witness for `generate_seq_eq_generate_seq2`: vocabulary `["Am", "C"]`,
window length 1, a sampler that always picks index 0, seed `"C"`, three
chords. -/
theorem generate_seq_eq_generate_seq2_witness :
    (["Am", "C"] : List String).Nodup
    ∧ (∀ t w, (fun _ _ => 0 : Nat → List Nat → Nat) t w < (["Am", "C"] : List String).length)
    ∧ generate_seq ["Am", "C"] 1 (fun _ _ => 0) "C" 3
        = generate_seq2 ["Am", "C"] 1 (fun _ _ => 0) "C" 3 :=
  ⟨by decide, fun _ _ => Nat.zero_lt_two,
    generate_seq_eq_generate_seq2 ["Am", "C"] 1 (fun _ _ => 0) "C" 3
      (by decide) (fun _ _ => Nat.zero_lt_two)⟩

/-! ### Player lemmas and claims -/

/-- Recognizer for `noteon` events. -/
def SynthEvent.isNoteon : SynthEvent → Bool
  | SynthEvent.noteon _ _ _ => true
  | _ => false

/-- Recognizer for `noteoff` events. -/
def SynthEvent.isNoteoff : SynthEvent → Bool
  | SynthEvent.noteoff _ _ => true
  | _ => false

/-- Modelled from the spec: the `chords_components.yml` data resource is not
among the repository's source files; per the spec's data model it maps each
chord name to the ordered list of its component note names (root, third,
fifth).  A small concrete table in exactly that shape, for concrete
evaluations.  The empty string is not a chord name, so it is not a key. -/
def componentsEx : String → Option (List String) := fun chord =>
  if chord = "C:maj" then some ["C", "E", "G"]
  else if chord = "A:min" then some ["A", "C", "E"]
  else if chord = "G:maj" then some ["G", "B", "D"]
  else none

/-- Modelled from the spec: `audiolazy.lazy_midi.str2midi` converts a note
name at the fixed reference octave 5 to a pitch number.  A small concrete
conversion; no claim inspects pitch values. -/
def str2midiEx : String → Int := fun s =>
  if s = "C5" then 72 else if s = "E5" then 76 else if s = "G5" then 79
  else if s = "A5" then 81 else if s = "B5" then 83 else if s = "D5" then 74
  else 60

/-- Modelled from the spec: the synthesizer capture `fl.get_samples(n)`
returns `n` samples ("capture exactly one second (one sample-rate's worth of
samples) of audio"). -/
def getSamplesEx : Nat → List Int := fun n => List.replicate n 0

theorem _make_chord_isSome {components : String → Option (List String)}
    (str2midi : String → Int) (get_samples : Nat → List Int) (rate : Nat)
    {chord : String} (instrument : String) {comps : List String}
    (h : components chord = some comps) :
    ∃ tr, _make_chord components str2midi get_samples rate chord instrument
      = some (get_samples rate, tr) := by
  refine ⟨?_, ?_⟩
  · exact [SynthEvent.sfload instrument, SynthEvent.programSelect 0 0 0]
      ++ (comps.map (fun x => str2midi (x ++ "5"))).map (fun note => SynthEvent.noteon 0 note 60)
      ++ [SynthEvent.getSamples rate]
      ++ ([] : List Int).map (fun note => SynthEvent.noteoff 0 note)
      ++ [SynthEvent.delete]
  · simp [_make_chord, h, PyIter.drain]

theorem _make_chord_none {components : String → Option (List String)}
    {str2midi : String → Int} {get_samples : Nat → List Int} {rate : Nat}
    {chord instrument : String} (h : components chord = none) :
    _make_chord components str2midi get_samples rate chord instrument = none := by
  simp [_make_chord, h]

theorem playLoop_length {components : String → Option (List String)}
    {str2midi : String → Int} {get_samples : Nat → List Int} {rate : Nat}
    {instrument : String} (hgs : (get_samples rate).length = rate) :
    ∀ (chords : List String) (audio : List Int),
      (∀ c ∈ chords, (components c).isSome) →
      ∃ out, playLoop components str2midi get_samples rate instrument chords audio
          = some out ∧ out.length = audio.length + chords.length * rate := by
  intro chords
  induction chords with
  | nil => intro audio _; exact ⟨audio, rfl, by simp⟩
  | cons d rest ih =>
      intro audio hmem
      obtain ⟨comps, hd⟩ := Option.isSome_iff_exists.mp (hmem d (by simp))
      obtain ⟨tr, hmk⟩ := _make_chord_isSome str2midi get_samples rate instrument hd
      obtain ⟨out, hout, hlen⟩ := ih (audio ++ get_samples rate)
        (fun c hc => hmem c (by simp [hc]))
      refine ⟨out, ?_, ?_⟩
      · simp only [playLoop, hmk, hout]
      · rw [hlen, List.length_append, hgs, List.length_cons]
        ring

/-- C4: for every input sequence string of `k` chords, each a key of the
components table, `play` returns a waveform of exactly `k × rate` samples:
the per-chord one-second captures concatenated in sequence order.  `hgs` is
the spec's contract for the black-box synthesizer capture: `fl.get_samples(n)`
returns `n` samples. -/
theorem play_waveform_length (components : String → Option (List String))
    (str2midi : String → Int) (get_samples : Nat → List Int) (rate : Nat)
    (seq instrument : String) (hgs : ∀ n, (get_samples n).length = n)
    (hmem : ∀ c ∈ pySplitSpace seq, (components c).isSome) :
    ∃ audio, play components str2midi get_samples rate seq instrument = some audio
      ∧ audio.length = (pySplitSpace seq).length * rate := by
  obtain ⟨out, hout, hlen⟩ := playLoop_length (hgs rate) (pySplitSpace seq) [] hmem
  exact ⟨out, hout, by simpa using hlen⟩

/-- Witness for `play_waveform_length`: the two-chord sequence
`"C:maj A:min"` at rate 2 renders to four samples. -/
theorem play_waveform_length_witness :
    (∀ n, (getSamplesEx n).length = n)
    ∧ (∀ c ∈ pySplitSpace "C:maj A:min", (componentsEx c).isSome)
    ∧ ∃ audio, play componentsEx str2midiEx getSamplesEx 2 "C:maj A:min" "piano.sf2"
        = some audio ∧ audio.length = (pySplitSpace "C:maj A:min").length * 2 :=
  ⟨fun n => by simp [getSamplesEx], by decide,
    play_waveform_length componentsEx str2midiEx getSamplesEx 2 "C:maj A:min" "piano.sf2"
      (fun n => by simp [getSamplesEx]) (by decide)⟩

theorem playLoop_none {components : String → Option (List String)}
    {str2midi : String → Int} {get_samples : Nat → List Int} {rate : Nat}
    {instrument c : String} (hunk : components c = none) :
    ∀ (chords : List String) (audio : List Int), c ∈ chords →
      playLoop components str2midi get_samples rate instrument chords audio = none := by
  intro chords
  induction chords with
  | nil => intro audio hc; exact absurd hc (List.not_mem_nil c)
  | cons d rest ih =>
      intro audio hc
      cases hmc : _make_chord components str2midi get_samples rate d instrument with
      | none => simp only [playLoop, hmc]
      | some r =>
          have hdc : c ≠ d := by
            intro h
            rw [← h, _make_chord_none hunk] at hmc
            exact Option.noConfusion hmc
          have hcrest : c ∈ rest := by
            rcases List.mem_cons.mp hc with h | h
            · exact absurd h hdc
            · exact h
          simp only [playLoop, hmc]
          exact ih (audio ++ r.1) hcrest

/-- C6: if any chord token of the input sequence is missing from the
components table, `play` fails with a lookup error that propagates to the
caller (result `none`): the unknown chord is neither skipped nor replaced by
silence, since the whole call aborts without returning a buffer. -/
theorem play_unknown_chord_fails (components : String → Option (List String))
    (str2midi : String → Int) (get_samples : Nat → List Int) (rate : Nat)
    (seq instrument c : String) (hc : c ∈ pySplitSpace seq)
    (hunk : components c = none) :
    play components str2midi get_samples rate seq instrument = none :=
  playLoop_none hunk (pySplitSpace seq) [] hc

/-- Witness for `play_unknown_chord_fails`: the token `"X:odd"` of the
sequence `"C:maj X:odd"` is not in the components table. -/
theorem play_unknown_chord_fails_witness :
    "X:odd" ∈ pySplitSpace "C:maj X:odd"
    ∧ componentsEx "X:odd" = none
    ∧ play componentsEx str2midiEx getSamplesEx 3 "C:maj X:odd" "piano.sf2" = none :=
  ⟨by decide, by decide,
    play_unknown_chord_fails componentsEx str2midiEx getSamplesEx 3 "C:maj X:odd"
      "piano.sf2" "X:odd" (by decide) (by decide)⟩

/-- C1 is false on the code: Python's `"".split(" ")` is `['']`, so `play` on
the empty sequence string looks the empty chord name up in the components
table, hits a `KeyError`, and raises instead of returning an empty
waveform. -/
theorem play_empty_string_raises :
    play componentsEx str2midiEx getSamplesEx 4 "" "piano.sf2" = none := by decide

/-- C1 (amended): `play` on the empty sequence string fails with a lookup
error rather than returning an empty waveform, for every components table
without the empty string among its keys: the split of `""` on `" "` yields
the single empty token, whose lookup raises. -/
theorem play_empty_string_fails (components : String → Option (List String))
    (str2midi : String → Int) (get_samples : Nat → List Int) (rate : Nat)
    (instrument : String) (h : components "" = none) :
    play components str2midi get_samples rate "" instrument = none := by
  unfold play
  rw [show pySplitSpace "" = [""] from rfl]
  exact playLoop_none h [""] [] (by simp)

/-- Witness for `play_empty_string_fails` on the concrete modelled table. -/
theorem play_empty_string_fails_witness :
    componentsEx "" = none
    ∧ play componentsEx str2midiEx getSamplesEx 8 "" "guitar.sf2" = none :=
  ⟨by decide,
    play_empty_string_fails componentsEx str2midiEx getSamplesEx 8 "guitar.sf2" (by decide)⟩

/-- C2 is false on the code under Python 3: `midi_notes = map(...)` is a
one-shot iterator, exhausted by the `noteon` loop, so the `noteoff` loop
iterates zero times and no note is ever stopped before `fl.delete()` —
contradicting the code's own comment "Stop all notes and close
synthetizer".  Rendering `"C:maj"` (components C, E, G at octave 5, i.e.
MIDI 72, 76, 79) produces the trace below: three `noteon` events, the
capture, NO `noteoff` event, then the deletion of the instance. -/
theorem makeChord_never_stops_notes :
    _make_chord componentsEx str2midiEx getSamplesEx 4 "C:maj" "piano.sf2"
      = some (List.replicate 4 0,
          [SynthEvent.sfload "piano.sf2", SynthEvent.programSelect 0 0 0,
            SynthEvent.noteon 0 72 60, SynthEvent.noteon 0 76 60,
            SynthEvent.noteon 0 79 60, SynthEvent.getSamples 4,
            SynthEvent.delete]) := by decide

